import Mathlib

/-!
Verification of the Groth16 prover core of `rapidsnark/src/groth16.cpp`
(namespace `Groth16`), shallowly embedded.

Modelling conventions:

* `Fr` is the BN254 scalar field `ZMod q`.  An element of `Fr` models the
  *stored* value of a C++ `FrElement` (its four little-endian 64-bit limbs
  read as one integer, reduced mod `q`).  Values at rest are in Montgomery
  form; the library primitives are modelled on stored values:
  `E.fr.mul` as `frMul` (Montgomery multiplication, `x * y * Rinv`),
  `E.fr.add`/`E.fr.sub` as `+`/`-`, and the conversions as
  `toMont` (`· * R`) and `fromMont` (`· * Rinv`).
* Curve points live in arbitrary additive commutative groups.
  `mulByScalar` consumes its scalar argument as a raw little-endian byte
  string, so it is modelled as `Nat`-scalar multiplication by the stored
  integer value.
* An in-memory array of length `d` is a function `Fin d → α`; an in-place
  loop that writes every cell is a fold of `Function.update` over
  `List.finRange d`.
-/

namespace Groth16

/-- BN254 (alt_bn128) scalar-field modulus, the integer denoted by the
four 64-bit limbs of `fr_modulus` in `Prover::prove`. -/
def q : Nat := 21888242871839275222246405745257275088548364400416034343698204186575808495617

/-- The scalar field; an element is the canonical stored value of a
C++ `FrElement`. -/
abbrev Fr := ZMod q

instance : NeZero q := ⟨by decide⟩

instance : Fact (1 < q) := ⟨by decide⟩

/-- The Montgomery radix `R = 2^256` for the 4×64-bit representation. -/
def RN : Nat := 2 ^ 256

/-- The inverse of the Montgomery radix modulo `q`
(`RinvN * 2^256 ≡ 1 (mod q)`). -/
def RinvN : Nat := 9915499612839321149637521777990102151350674507940716049588462388200839649614

/-- Montgomery radix as a field element. -/
def Rmont : Fr := (RN : Fr)

/-- Inverse Montgomery radix as a field element. -/
def Rinv : Fr := (RinvN : Fr)

/-- Montgomery multiplication: `E.fr.mul` on stored values. -/
def frMul (x y : Fr) : Fr := x * y * Rinv

/-- Conversion `E.fr.toMontgomery` on stored values. -/
def toMont (x : Fr) : Fr := x * Rmont

/-- Conversion `E.fr.fromMontgomery` on stored values. -/
def fromMont (x : Fr) : Fr := x * Rinv

/-! ## In-place array writes

An in-place loop `for i in [0,d): v[i] = f(i)` over an array modelled as a
function is a fold of `Function.update` over the index list, where the
body `f` only reads cells the loop has not yet written. -/

/-- Fold of in-place writes `v[i] := f i` over an index list. -/
def writeAll {ι α : Type} [DecidableEq ι] (l : List ι) (f : ι → α) (v : ι → α) : ι → α :=
  l.foldl (fun u i => Function.update u i (f i)) v

/-- In-place write of every cell of a `d`-cell array. -/
def arrWrite {α : Type} (d : Nat) (f : Fin d → α) (v : Fin d → α) : Fin d → α :=
  writeAll (List.finRange d) f v

/-! ## Phase 5 — blinding-scalar rejection sampling

A draw of `randombytes_buf(&r, sizeof(r))` fills the four 64-bit limbs of
an `FrElement` with uniform bytes; the code then masks the top two bits of
the highest limb and compares the candidate against `fr_modulus` with
`mpn_cmp`, resampling while the comparison is non-negative. -/

/-- Four 64-bit limbs in little-endian order (one 256-bit draw). -/
structure Limbs4 where
  v0 : Nat
  v1 : Nat
  v2 : Nat
  v3 : Nat
deriving DecidableEq

/-- The integer a four-limb little-endian value denotes. -/
def Limbs4.val (x : Limbs4) : Nat :=
  x.v0 + 2 ^ 64 * x.v1 + 2 ^ 128 * x.v2 + 2 ^ 192 * x.v3

/-- Well-formedness of a draw: every limb fits in 64 bits. -/
def Limbs4.wf (x : Limbs4) : Prop :=
  x.v0 < 2 ^ 64 ∧ x.v1 < 2 ^ 64 ∧ x.v2 < 2 ^ 64 ∧ x.v3 < 2 ^ 64

instance (x : Limbs4) : Decidable x.wf := by
  unfold Limbs4.wf; infer_instance

/-- The masking step `r.v[3] &= 0x3FFFFFFFFFFFFFFF`. -/
def maskTop (x : Limbs4) : Limbs4 :=
  ⟨x.v0, x.v1, x.v2, x.v3 &&& 0x3FFFFFFFFFFFFFFF⟩

/-- The limbs of `fr_modulus` in `Prover::prove`, little-endian. -/
def frModulus : Limbs4 :=
  ⟨0x43E1F593F0000001, 0x2833E84879B97091, 0xB85045B68181585D, 0x30644E72E131A029⟩

/-- GMP `mpn_cmp` on four limbs: scan from the most significant limb and
return the sign of the first difference. -/
def mpnCmp4 (x y : Limbs4) : Ordering :=
  if x.v3 < y.v3 then .lt else if y.v3 < x.v3 then .gt
  else if x.v2 < y.v2 then .lt else if y.v2 < x.v2 then .gt
  else if x.v1 < y.v1 then .lt else if y.v1 < x.v1 then .gt
  else if x.v0 < y.v0 then .lt else if y.v0 < x.v0 then .gt
  else .eq

/-- Acceptance test of one candidate: mask, then accept exactly when
`mpn_cmp` against the modulus is negative (the loop exits when
`cmp < 0`). -/
def sampleAccept (d : Limbs4) : Bool :=
  decide (mpnCmp4 (maskTop d) frModulus = Ordering.lt)

/-- The rejection loop over a stream of draws: mask each candidate and
return the first accepted one. -/
def sampleLoop : List Limbs4 → Option Limbs4
  | [] => none
  | d :: rest => if sampleAccept d then some (maskTop d) else sampleLoop rest

/-! ## Curve points and multi-scalar multiplication

Curve points are modelled as elements of additive commutative groups.
The library's scalar-multiplication entry points consume each scalar as a
raw little-endian byte string; on our stored-value model that integer is
`Fr.val`, and scalar multiplication is `Nat`-scalar multiplication. -/

/-- Scalar multiplication `E.g1.mulByScalar` / `E.g2.mulByScalar` with a raw scalar of integer
value `k`. -/
def mulByScalar {G : Type} [AddCommGroup G] (P : G) (k : Nat) : G := k • P

/-- Multi-scalar multiplication `multiMulByScalar` over base table `pts` and scalar table `sc`
(entry `i` of the scalar buffer is the stored value of one `FrElement`),
with `n` terms. -/
def msm {G : Type} [AddCommGroup G] (pts : Nat → G) (sc : Nat → Fr) (n : Nat) : G :=
  ∑ i ∈ Finset.range n, (sc i).val • pts i

/-- Multi-scalar multiplication whose scalar buffer is a `d`-cell array. -/
def msmArr {G : Type} [AddCommGroup G] (pts : Nat → G) {d : Nat} (sc : Fin d → Fr) : G :=
  ∑ i : Fin d, (sc i).val • pts i.val

/-- Size in bytes of one `FrElement` (four 64-bit limbs); the value of
`sW = sizeof(wtns[0])` in `Prover::prove`. -/
def frByteSize : Nat := 32

/-- One coefficient record of the zkey stream: polynomial selector `m`,
target index `c` (in range by the key invariant), witness index `s`, and
a Montgomery-form factor `coef`. -/
structure Coef (d : Nat) where
  m : Nat
  c : Fin d
  s : Nat
  coef : Fr
deriving DecidableEq

/-- The immutable proving key held by a `Prover` instance, with FFT
domain size `d`. -/
structure ProvingKey (G1 G2 : Type) (d : Nat) where
  nVars : Nat
  nPublic : Nat
  vk_alpha1 : G1
  vk_beta1 : G1
  vk_delta1 : G1
  vk_beta2 : G2
  vk_delta2 : G2
  coefs : List (Coef d)
  pointsA : Nat → G1
  pointsB1 : Nat → G1
  pointsB2 : Nat → G2
  pointsC : Nat → G1
  pointsH : Nat → G1

/-! ## Phase 1 — witness MSMs -/

/-- One `multiMulByScalar` invocation: base table, scalar table, scalar
byte width, and term count. -/
structure MsmCall (G : Type) where
  pts : Nat → G
  sc : Nat → Fr
  loadWidth : Nat
  n : Nat

/-- Result of an MSM invocation. -/
def MsmCall.run {G : Type} [AddCommGroup G] (cl : MsmCall G) : G :=
  msm cl.pts cl.sc cl.n

section Phase1

variable {G1 G2 : Type} [AddCommGroup G1] [AddCommGroup G2] {d : Nat}

/-- The `pi_a` MSM call: `pointsA` against `wtns`, `nVars` terms. -/
def callA (pk : ProvingKey G1 G2 d) (wtns : Nat → Fr) : MsmCall G1 :=
  ⟨pk.pointsA, wtns, frByteSize, pk.nVars⟩

/-- The `pib1` MSM call: `pointsB1` against `wtns`, `nVars` terms. -/
def callB1 (pk : ProvingKey G1 G2 d) (wtns : Nat → Fr) : MsmCall G1 :=
  ⟨pk.pointsB1, wtns, frByteSize, pk.nVars⟩

/-- The `pi_b` MSM call: `pointsB2` against `wtns`, `nVars` terms, in G2. -/
def callB2 (pk : ProvingKey G1 G2 d) (wtns : Nat → Fr) : MsmCall G2 :=
  ⟨pk.pointsB2, wtns, frByteSize, pk.nVars⟩

/-- The `pi_c` MSM call: scalar pointer advanced by `(nPublic+1)`
elements, `nVars − nPublic − 1` terms against `pointsC`. -/
def callC (pk : ProvingKey G1 G2 d) (wtns : Nat → Fr) : MsmCall G1 :=
  ⟨pk.pointsC, fun i => wtns (pk.nPublic + 1 + i), frByteSize,
    pk.nVars - pk.nPublic - 1⟩

/-- Phase 1 of `Prover::prove`: the four witness MSMs
`(pi_a, pib1, pi_b, pi_c)`. -/
def phase1 (pk : ProvingKey G1 G2 d) (wtns : Nat → Fr) : G1 × G1 × G2 × G1 :=
  ((callA pk wtns).run, (callB1 pk wtns).run, (callB2 pk wtns).run,
    (callC pk wtns).run)

end Phase1

/-! ## Phase 2 — coefficient scatter-add -/

section Phase2

variable {d : Nat}

/-- Zero-initialisation loop at the start of Phase 2: the parallel loop
writes `a[i] = b[i] = 0` for every `i < domainSize`; the `c` array is
allocated but not written. -/
def initVectors (d : Nat) (a0 b0 c0 : Fin d → Fr) :
    (Fin d → Fr) × (Fin d → Fr) × (Fin d → Fr) :=
  (arrWrite d (fun _ => 0) a0, arrWrite d (fun _ => 0) b0, c0)

/-- The variant of the initialisation that zero-writes all three arrays,
as the specification describes it. -/
def initVectorsAll (d : Nat) (a0 b0 c0 : Fin d → Fr) :
    (Fin d → Fr) × (Fin d → Fr) × (Fin d → Fr) :=
  (arrWrite d (fun _ => 0) a0, arrWrite d (fun _ => 0) b0,
    arrWrite d (fun _ => 0) c0)

/-- One iteration of the coefficient loop: `aux = wtns[s]·coef`, then a
locked add into `a[c]` when `m = 0`, else into `b[c]`. -/
def scatterStep (wtns : Nat → Fr) (p : (Fin d → Fr) × (Fin d → Fr)) (t : Coef d) :
    (Fin d → Fr) × (Fin d → Fr) :=
  let aux := frMul (wtns t.s) t.coef
  if t.m = 0 then
    (Function.update p.1 t.c (p.1 t.c + aux), p.2)
  else
    (p.1, Function.update p.2 t.c (p.2 t.c + aux))

/-- The whole coefficient scatter, processed in stream order. -/
def scatter (wtns : Nat → Fr) (cs : List (Coef d)) (p : (Fin d → Fr) × (Fin d → Fr)) :
    (Fin d → Fr) × (Fin d → Fr) :=
  cs.foldl (scatterStep wtns) p

/-- Net addend of a record list into the `a` bucket at index `j`. -/
def bucketA (wtns : Nat → Fr) (cs : List (Coef d)) (j : Fin d) : Fr :=
  ((cs.filter fun t => decide (t.m = 0 ∧ t.c = j)).map
    fun t => frMul (wtns t.s) t.coef).sum

/-- Net addend of a record list into the `b` bucket at index `j`. -/
def bucketB (wtns : Nat → Fr) (cs : List (Coef d)) (j : Fin d) : Fr :=
  ((cs.filter fun t => decide (¬ t.m = 0 ∧ t.c = j)).map
    fun t => frMul (wtns t.s) t.coef).sum

end Phase2

/-! ## Phases 3 and 4 — coset-FFT pipeline, quotient evaluations, H-MSM

The FFT engine (`fft_`) is an external collaborator; it is modelled as an
abstract bundle of its four entry points used by `prove`. -/

/-- External FFT engine: in-place forward and inverse FFT on a `d`-cell
array, the twiddle-root table `root`, and `log2`. -/
structure FFTModel where
  ifft : (d : Nat) → (Fin d → Fr) → Fin d → Fr
  fft : (d : Nat) → (Fin d → Fr) → Fin d → Fr
  root : Nat → Nat → Fr
  log2 : Nat → Nat

/-- Pointwise product loop `c[i] = a[i]·b[i]` writing into the `c`
array. -/
def computeC (d : Nat) (a b c0 : Fin d → Fr) : Fin d → Fr :=
  arrWrite d (fun i => frMul (a i) (b i)) c0

/-- The per-vector chain of Phase 3 as the source performs it: in-place
iFFT, in-place coset-shift loop by `root(domainPower+1, i)`, in-place
FFT. -/
def cosetChain (F : FFTModel) (d : Nat) (v : Fin d → Fr) : Fin d → Fr :=
  let w := F.ifft d v
  let w2 := arrWrite d (fun i => frMul (w i) (F.root (F.log2 d + 1) i.val)) w
  F.fft d w2

/-- The chain as the specification words it: forward FFT of the shifted
inverse FFT. -/
def cosetChainSpec (F : FFTModel) (d : Nat) (v : Fin d → Fr) : Fin d → Fr :=
  F.fft d (fun i => frMul (F.ifft d v i) (F.root (F.log2 d + 1) i.val))

/-- The Phase 4 quotient-evaluation loop, writing
`a[i] ← fromMontgomery(a[i]·b[i] − c[i])` in place into the `a` array. -/
def hEvals (d : Nat) (a b c : Fin d → Fr) : Fin d → Fr :=
  arrWrite d (fun i => fromMont (frMul (a i) (b i) - c i)) a

/-- Phases 3–4 of `Prover::prove`: the three coset chains, the pointwise
quotient evaluations, and the H-MSM; returns `(h_evals, pih)`. -/
def phase34 {G1 : Type} [AddCommGroup G1] (F : FFTModel) (d : Nat)
    (pointsH : Nat → G1) (a b c : Fin d → Fr) : (Fin d → Fr) × G1 :=
  let a2 := cosetChain F d a
  let b2 := cosetChain F d b
  let c2 := cosetChain F d c
  let h := hEvals d a2 b2 c2
  (h, msmArr pointsH h)

/-! ## Phase 6 — final proof assembly -/

section Phase6

variable {G1 G2 : Type} [AddCommGroup G1] [AddCommGroup G2] {d : Nat}

/-- Phase 6 of `Prover::prove`, step for step: fold the verifying-key
commitments and the blinding scalars (raw integer values `rN`, `sN`) into
the MSM outputs, producing `(A, B, C)`. -/
def assemble (pk : ProvingKey G1 G2 d) (pi_a pib1 : G1) (pi_b : G2)
    (pi_c pih : G1) (rN sN : Nat) : G1 × G2 × G1 :=
  let piA1 := pi_a + pk.vk_alpha1
  let piA2 := piA1 + mulByScalar pk.vk_delta1 rN
  let piB1 := pi_b + pk.vk_beta2
  let piB2 := piB1 + mulByScalar pk.vk_delta2 sN
  let b11 := pib1 + pk.vk_beta1
  let b12 := b11 + mulByScalar pk.vk_delta1 sN
  let piC1 := pi_c + pih
  let piC2 := piC1 + mulByScalar piA2 sN
  let piC3 := piC2 + mulByScalar b12 rN
  let rs := toMont (frMul (rN : Fr) (sN : Fr))
  let piC4 := piC3 - mulByScalar pk.vk_delta1 rs.val
  (piA2, piB2, piC4)

/-! ## The whole of `Prover::prove`, and its checked wrapper -/

/-- The composition of the six phases of `Prover::prove`.  The freshly
allocated (uninitialised) `a`, `b`, `c` arrays are passed in as `a0`,
`b0`, `c0`; the randomness source is passed in as two streams of draws,
and `none` is returned when a rejection loop exhausts its stream. -/
def proveRun (F : FFTModel) (pk : ProvingKey G1 G2 d) (wtns : Nat → Fr)
    (a0 b0 c0 : Fin d → Fr) (rDraws sDraws : List Limbs4) :
    Option (G1 × G2 × G1) :=
  let p1 := phase1 pk wtns
  let iv := initVectors d a0 b0 c0
  let ab := scatter wtns pk.coefs (iv.1, iv.2.1)
  let cv := computeC d ab.1 ab.2 iv.2.2
  let ph := phase34 F d pk.pointsH ab.1 ab.2 cv
  match sampleLoop rDraws, sampleLoop sDraws with
  | some r, some s =>
    some (assemble pk p1.1 p1.2.1 p1.2.2.1 p1.2.2.2 ph.2 r.val s.val)
  | _, _ => none

/-- The same composition with the specification's initialisation that
zero-writes all three of `a`, `b`, `c`. -/
def proveRunZeroC (F : FFTModel) (pk : ProvingKey G1 G2 d) (wtns : Nat → Fr)
    (a0 b0 c0 : Fin d → Fr) (rDraws sDraws : List Limbs4) :
    Option (G1 × G2 × G1) :=
  let p1 := phase1 pk wtns
  let iv := initVectorsAll d a0 b0 c0
  let ab := scatter wtns pk.coefs (iv.1, iv.2.1)
  let cv := computeC d ab.1 ab.2 iv.2.2
  let ph := phase34 F d pk.pointsH ab.1 ab.2 cv
  match sampleLoop rDraws, sampleLoop sDraws with
  | some r, some s =>
    some (assemble pk p1.1 p1.2.1 p1.2.2.1 p1.2.2.2 ph.2 r.val s.val)
  | _, _ => none

/-- Errors surfaced by the checked wrapper. -/
inductive ProveError where
  | InvalidWitnessLength : ProveError
  | RngFailure : ProveError
deriving DecidableEq

/-- Modelled from the spec: the length-checked entry point around the
C++ core.  `src/groth16.cpp` itself receives a raw witness pointer; the
check "fails with `InvalidWitnessLength` if the witness length
mismatches" (§4.1, §7) lives in the calling wrapper, which is not part of
the provided source.  The witness is a vector whose length is compared
with `nVars`; on success the core runs on its elements. -/
def proveChecked (F : FFTModel) (pk : ProvingKey G1 G2 d) (wtns : List Fr)
    (a0 b0 c0 : Fin d → Fr) (rDraws sDraws : List Limbs4) :
    Except ProveError (G1 × G2 × G1) :=
  if wtns.length ≠ pk.nVars then .error .InvalidWitnessLength
  else
    match proveRun F pk (fun i => wtns.getD i 0) a0 b0 c0 rDraws sDraws with
    | some p => .ok p
    | none => .error .RngFailure

end Phase6

/-! ## Proof serialization (`Proof::toJson`, `Proof::toJsonStr`)

Coordinates of the output proof live in the base field Fq (and Fq2 for
G2).  The field library's `E.f1.toString` is external to the provided
source; it is modelled from the spec below. -/

/-- BN254 base-field modulus. -/
def pBase : Nat := 21888242871839275222246405745257275088696311157297823662689037894645226208583

/-- The base field; an element is the stored (Montgomery-form) value of a
C++ `F1Element`. -/
abbrev Fq := ZMod pBase

/-- Inverse of the Montgomery radix `2^256` modulo `pBase`. -/
def RinvQN : Nat := 20988524275117001072002809824448087578619730785600314334253784976379291040311

/-- Montgomery-to-natural conversion in the base field. -/
def fqFromMont (x : Fq) : Fq := x * (RinvQN : Fq)

/-- Modelled from the spec: the external `E.f1.toString` used by the
serializers returns "the decimal string of the natural-form integer
representative" of a stored base-field element (§4.2). -/
def f1toString (x : Fq) : String := Nat.repr (fqFromMont x).val

/-- An Fq2 element, coordinates `a + b·u`. -/
structure Fq2 where
  a : Fq
  b : Fq

/-- An affine G1 point as serialized. -/
structure G1Affine where
  x : Fq
  y : Fq

/-- An affine G2 point as serialized. -/
structure G2Affine where
  x : Fq2
  y : Fq2

/-- The output proof record `(A, B, C)` with concrete coordinates. -/
structure ProofAffine where
  A : G1Affine
  B : G2Affine
  C : G1Affine

/-- A JSON value: enough of the `nlohmann::json` model for the two
serializers. -/
inductive Json where
  | str : String → Json
  | arr : List Json → Json
  | obj : List (String × Json) → Json

/-- Key insertion into an object's field list, keeping keys sorted, as
the C++ json library's map-backed objects do. -/
def objInsert (k : String) (v : Json) : List (String × Json) → List (String × Json)
  | [] => [(k, v)]
  | (k', v') :: t =>
    if k < k' then (k, v) :: (k', v') :: t
    else if k = k' then (k, v) :: t
    else (k', v') :: objInsert k v t

/-- Assignment `j[k] = v` on an object. -/
def Json.setField (j : Json) (k : String) (v : Json) : Json :=
  match j with
  | .obj fields => .obj (objInsert k v fields)
  | j => j

/-- Array append `j.push_back(v)`. -/
def Json.pushElem (j : Json) (v : Json) : Json :=
  match j with
  | .arr l => .arr (l ++ [v])
  | j => j

/-- Append `j[k].push_back(v)` on an object field. -/
def Json.pushAt (j : Json) (k : String) (v : Json) : Json :=
  match j with
  | .obj fields =>
    .obj (fields.map fun kv => if kv.1 = k then (kv.1, kv.2.pushElem v) else kv)
  | j => j

/-- Method `Proof::toJson`, assignment for assignment.  An empty initializer
makes a field an empty array (push_back then appends). -/
def ProofAffine.toJson (pr : ProofAffine) : Json :=
  let p0 := Json.obj []
  let p1 := (p0.setField "pi_a" (.arr [])).pushAt "pi_a" (.str (f1toString pr.A.x))
  let p2 := (p1.pushAt "pi_a" (.str (f1toString pr.A.y))).pushAt "pi_a" (.str "1")
  let x2 := ((Json.arr []).pushElem (.str (f1toString pr.B.x.a))).pushElem
    (.str (f1toString pr.B.x.b))
  let y2 := ((Json.arr []).pushElem (.str (f1toString pr.B.y.a))).pushElem
    (.str (f1toString pr.B.y.b))
  let z2 := ((Json.arr []).pushElem (.str "1")).pushElem (.str "0")
  let p3 := (((p2.setField "pi_b" (.arr [])).pushAt "pi_b" x2).pushAt "pi_b" y2).pushAt "pi_b" z2
  let p4 := (p3.setField "pi_c" (.arr [])).pushAt "pi_c" (.str (f1toString pr.C.x))
  let p5 := (p4.pushAt "pi_c" (.str (f1toString pr.C.y))).pushAt "pi_c" (.str "1")
  p5.setField "protocol" (.str "groth16")

/-- Method `Proof::toJsonStr`, stream insertion for stream insertion. -/
def ProofAffine.toJsonStr (pr : ProofAffine) : String :=
  "\x7b \"pi_a\":[\"" ++ f1toString pr.A.x ++ "\",\"" ++ f1toString pr.A.y
    ++ "\",\"1\"], " ++ " \"pi_b\": [[\"" ++ f1toString pr.B.x.a ++ "\",\""
    ++ f1toString pr.B.x.b ++ "\"],[\"" ++ f1toString pr.B.y.a ++ "\",\""
    ++ f1toString pr.B.y.b ++ "\"], [\"1\",\"0\"]], " ++ " \"pi_c\": [\""
    ++ f1toString pr.C.x ++ "\",\"" ++ f1toString pr.C.y ++ "\",\"1\"], "
    ++ " \"protocol\":\"groth16\" \x7d"

/-- The JSON object exactly as the specification prints it (§4.2), with
the fields in the order pi_a, pi_b, pi_c, protocol. -/
def proofJsonSpec (pr : ProofAffine) : Json :=
  Json.obj
    [("pi_a", .arr [.str (f1toString pr.A.x), .str (f1toString pr.A.y), .str "1"]),
     ("pi_b", .arr [.arr [.str (f1toString pr.B.x.a), .str (f1toString pr.B.x.b)],
                    .arr [.str (f1toString pr.B.y.a), .str (f1toString pr.B.y.b)],
                    .arr [.str "1", .str "0"]]),
     ("pi_c", .arr [.str (f1toString pr.C.x), .str (f1toString pr.C.y), .str "1"]),
     ("protocol", .str "groth16")]

/-- The string the specification's object prints to with the source's
spacing, fields in the order pi_a, pi_b, pi_c, protocol and the literal
third coordinates. -/
def proofStrSpec (pr : ProofAffine) : String :=
  "\x7b \"pi_a\":[\"" ++ f1toString pr.A.x ++ "\",\"" ++ f1toString pr.A.y
    ++ "\",\"1\"],  \"pi_b\": [[\"" ++ f1toString pr.B.x.a ++ "\",\""
    ++ f1toString pr.B.x.b ++ "\"],[\"" ++ f1toString pr.B.y.a ++ "\",\""
    ++ f1toString pr.B.y.b ++ "\"], [\"1\",\"0\"]],  \"pi_c\": [\""
    ++ f1toString pr.C.x ++ "\",\"" ++ f1toString pr.C.y
    ++ "\",\"1\"],  \"protocol\":\"groth16\" \x7d"

/-! ## Concrete instances used by the witness theorems -/

/-- A trivial FFT engine instance (identity transforms). -/
def fftId : FFTModel :=
  ⟨fun _ v => v, fun _ v => v, fun _ _ => 1, fun n => n.log2⟩

/-- A tiny concrete proving key over the group ℤ, with `nVars = 2`,
`nPublic = 0`, `domainSize = 1`. -/
def pkZ : ProvingKey Int Int 1 where
  nVars := 2
  nPublic := 0
  vk_alpha1 := 1
  vk_beta1 := 1
  vk_delta1 := 1
  vk_beta2 := 1
  vk_delta2 := 1
  coefs := [⟨0, 0, 0, 1⟩, ⟨1, 0, 1, 1⟩]
  pointsA := fun _ => 1
  pointsB1 := fun _ => 1
  pointsB2 := fun _ => 1
  pointsC := fun _ => 1
  pointsH := fun _ => 1

/-- The all-zero draw (accepted immediately by the rejection loop). -/
def drawZero : Limbs4 := ⟨0, 0, 0, 0⟩

/-- A zeroed 1-cell array. -/
def arr0 : Fin 1 → Fr := fun _ => 0

/-! ## Helper lemmas -/

theorem Rmont_mul_Rinv : Rmont * Rinv = 1 := by
  have h : (RN * RinvN) % q = 1 % q := by decide
  have h2 : ((RN * RinvN : Nat) : Fr) = ((1 : Nat) : Fr) :=
    (ZMod.natCast_eq_natCast_iff _ _ _).mpr h
  simpa [Rmont, Rinv, Nat.cast_mul] using h2

theorem toMont_frMul (x y : Fr) : toMont (frMul x y) = x * y := by
  have h := Rmont_mul_Rinv
  calc toMont (frMul x y) = x * y * (Rmont * Rinv) := by
        simp [toMont, frMul]; ring
    _ = x * y := by rw [h, mul_one]

theorem rsVal (rN sN : Nat) :
    (toMont (frMul (rN : Fr) (sN : Fr))).val = (rN * sN) % q := by
  rw [toMont_frMul, ← Nat.cast_mul, ZMod.val_natCast]

theorem writeAll_notMem {ι α : Type} [DecidableEq ι] {l : List ι} {j : ι}
    (f : ι → α) (v : ι → α) (h : j ∉ l) : writeAll l f v j = v j := by
  induction l generalizing v with
  | nil => rfl
  | cons i t ih =>
    have hji : j ≠ i := fun hji => h (hji ▸ List.mem_cons_self i t)
    have hjt : j ∉ t := fun hjt => h (List.mem_cons_of_mem i hjt)
    simpa [writeAll, List.foldl_cons, Function.update_noteq hji] using
      ih (Function.update v i (f i)) hjt

theorem writeAll_mem {ι α : Type} [DecidableEq ι] {l : List ι} {j : ι}
    (f : ι → α) (v : ι → α) (h : j ∈ l) : writeAll l f v j = f j := by
  induction l generalizing v with
  | nil => exact absurd h (List.not_mem_nil j)
  | cons i t ih =>
    by_cases hjt : j ∈ t
    · simpa [writeAll, List.foldl_cons] using ih (Function.update v i (f i)) hjt
    · have hji : j = i := by
        rcases List.mem_cons.mp h with h1 | h1
        · exact h1
        · exact absurd h1 hjt
      subst hji
      have := writeAll_notMem (l := t) f (Function.update v j (f j)) hjt
      simpa [writeAll, List.foldl_cons, Function.update_same] using this

theorem arrWrite_eq {α : Type} (d : Nat) (f v : Fin d → α) : arrWrite d f v = f :=
  funext fun j => writeAll_mem f v (List.mem_finRange j)

theorem frModulus_val : frModulus.val = q := by decide

theorem mpnCmp4_lt_iff (x y : Limbs4) (hx : x.wf) (hy : y.wf) :
    mpnCmp4 x y = Ordering.lt ↔ x.val < y.val := by
  obtain ⟨hx0, hx1, hx2, hx3⟩ := hx
  obtain ⟨hy0, hy1, hy2, hy3⟩ := hy
  unfold mpnCmp4 Limbs4.val
  split_ifs <;> simp_all <;> omega

theorem maskTop_wf {x : Limbs4} (hx : x.wf) : (maskTop x).wf := by
  obtain ⟨h0, h1, h2, h3⟩ := hx
  refine ⟨h0, h1, h2, ?_⟩
  calc x.v3 &&& 0x3FFFFFFFFFFFFFFF ≤ 0x3FFFFFFFFFFFFFFF := Nat.and_le_right
    _ < 2 ^ 64 := by norm_num

theorem sampleAccept_iff {d : Limbs4} (hd : d.wf) :
    sampleAccept d = true ↔ (maskTop d).val < q := by
  have hq : frModulus.wf := by decide
  rw [sampleAccept, decide_eq_true_iff, mpnCmp4_lt_iff _ _ (maskTop_wf hd) hq,
    frModulus_val]

theorem sampleLoop_sound :
    ∀ (draws : List Limbs4) (r : Limbs4), (∀ dr ∈ draws, dr.wf) →
      sampleLoop draws = some r → r.val < q ∧ ∃ dr ∈ draws, r = maskTop dr := by
  intro draws
  induction draws with
  | nil => intro r _ h; exact absurd h (by simp [sampleLoop])
  | cons dh rest ih =>
    intro r hwf h
    rw [sampleLoop] at h
    by_cases hacc : sampleAccept dh
    · rw [if_pos hacc] at h
      obtain rfl : maskTop dh = r := Option.some.inj h
      have hwfd := hwf dh (List.mem_cons_self _ _)
      exact ⟨(sampleAccept_iff hwfd).mp hacc, dh, List.mem_cons_self _ _, rfl⟩
    · rw [if_neg hacc] at h
      obtain ⟨hv, dr, hmem, heq⟩ :=
        ih r (fun x hx => hwf x (List.mem_cons_of_mem _ hx)) h
      exact ⟨hv, dr, List.mem_cons_of_mem _ hmem, heq⟩

section ScatterLemmas

variable {d : Nat}

theorem scatter_fst (wtns : Nat → Fr) (cs : List (Coef d))
    (p : (Fin d → Fr) × (Fin d → Fr)) (j : Fin d) :
    (scatter wtns cs p).1 j = p.1 j + bucketA wtns cs j := by
  induction cs generalizing p with
  | nil => simp [scatter, bucketA]
  | cons t ts ih =>
    rw [scatter, List.foldl_cons, ← scatter, ih, bucketA, scatterStep]
    by_cases hm : t.m = 0
    · by_cases hc : t.c = j
      · subst hc
        simp [hm, bucketA, Function.update_same, add_assoc]
      · simp [hm, hc, bucketA, Function.update_noteq (Ne.symm hc)]
    · simp [hm, bucketA]

theorem scatter_snd (wtns : Nat → Fr) (cs : List (Coef d))
    (p : (Fin d → Fr) × (Fin d → Fr)) (j : Fin d) :
    (scatter wtns cs p).2 j = p.2 j + bucketB wtns cs j := by
  induction cs generalizing p with
  | nil => simp [scatter, bucketB]
  | cons t ts ih =>
    rw [scatter, List.foldl_cons, ← scatter, ih, bucketB, scatterStep]
    by_cases hm : t.m = 0
    · simp [hm, bucketB]
    · by_cases hc : t.c = j
      · subst hc
        simp [hm, bucketB, Function.update_same, add_assoc]
      · simp [hm, hc, bucketB, Function.update_noteq (Ne.symm hc)]

theorem scatter_perm (wtns : Nat → Fr) {cs cs' : List (Coef d)}
    (h : cs.Perm cs') (p : (Fin d → Fr) × (Fin d → Fr)) :
    scatter wtns cs p = scatter wtns cs' p := by
  have hA : ∀ j, bucketA wtns cs j = bucketA wtns cs' j := fun j =>
    List.Perm.sum_eq (List.Perm.map _ (List.Perm.filter _ h))
  have hB : ∀ j, bucketB wtns cs j = bucketB wtns cs' j := fun j =>
    List.Perm.sum_eq (List.Perm.map _ (List.Perm.filter _ h))
  refine Prod.ext (funext fun j => ?_) (funext fun j => ?_)
  · rw [scatter_fst, scatter_fst, hA]
  · rw [scatter_snd, scatter_snd, hB]

end ScatterLemmas

theorem cosetChain_eq_spec (F : FFTModel) (d : Nat) (v : Fin d → Fr) :
    cosetChain F d v = cosetChainSpec F d v := by
  rw [cosetChain, cosetChainSpec, arrWrite_eq]

theorem hEvals_eq (d : Nat) (a b c : Fin d → Fr) :
    hEvals d a b c = fun i => fromMont (frMul (a i) (b i) - c i) :=
  arrWrite_eq d _ a

theorem append_lit {a b c : String} (h : a ++ b = c) (X : String) :
    a ++ (b ++ X) = c ++ X := by rw [← String.append_assoc, h]

/-! ## Claim theorems -/

/-- C1: for every proving key, Phase-1 MSM outputs, H-MSM output and
blinding scalars r, s, the Phase-6 assembly returns
`A = pi_a + vk_alpha1 + r·vk_delta1`,
`B = pi_b + vk_beta2 + s·vk_delta2`, and
`C = pi_c_partial + pih + s·A + r·B1' − (r·s)·vk_delta1` with
`B1' = pib1 + vk_beta1 + s·vk_delta1`, where the `s·A` term uses the
final `A` and the `(r·s)` scalar is the natural representative
`(r·s) mod q`. -/
theorem c1_phase6_assembly {G1 G2 : Type} [AddCommGroup G1] [AddCommGroup G2]
    {d : Nat} (pk : ProvingKey G1 G2 d) (pi_a pib1 : G1) (pi_b : G2)
    (pi_c pih : G1) (rN sN : Nat) :
    assemble pk pi_a pib1 pi_b pi_c pih rN sN =
      (pi_a + pk.vk_alpha1 + rN • pk.vk_delta1,
       pi_b + pk.vk_beta2 + sN • pk.vk_delta2,
       pi_c + pih + sN • (pi_a + pk.vk_alpha1 + rN • pk.vk_delta1)
         + rN • (pib1 + pk.vk_beta1 + sN • pk.vk_delta1)
         - ((rN * sN) % q) • pk.vk_delta1) := by
  simp only [assemble, mulByScalar, rsVal]

/-- C2: in `prove`, each of a, b, c goes through inverse FFT, coset shift
by `root(log2(domainSize)+1, i)`, forward FFT; then pointwise
`a[i] ← a[i]·b[i] − c[i]` converted out of Montgomery form, and `pih` is
the G1 MSM of `pointsH[0..domainSize]` against the resulting vector. -/
theorem c2_coset_pipeline {G1 : Type} [AddCommGroup G1] (F : FFTModel) (d : Nat)
    (pointsH : Nat → G1) (a b c : Fin d → Fr) :
    phase34 F d pointsH a b c =
      ((fun i => fromMont (frMul (cosetChainSpec F d a i) (cosetChainSpec F d b i)
          - cosetChainSpec F d c i)),
        msmArr pointsH (fun i => fromMont (frMul (cosetChainSpec F d a i)
          (cosetChainSpec F d b i) - cosetChainSpec F d c i))) := by
  simp only [phase34, cosetChain_eq_spec, hEvals_eq]

/-- C3: Phase 1 computes `pi_a`, `pib1` as G1 MSMs and `pi_b` as a G2 MSM
of the full `nVars` witness scalars, and `pi_c` as the G1 MSM of the
first `nVars − nPublic − 1` points of `pointsC` against the witness tail
starting at index `nPublic + 1`; every call passes scalar width
`sizeof(FrElement)`, and `pi_c` is independent of the public-input
prefix `wtns[0..=nPublic]`. -/
theorem c3_phase1_msms {G1 G2 : Type} [AddCommGroup G1] [AddCommGroup G2]
    {d : Nat} (pk : ProvingKey G1 G2 d) (wtns : Nat → Fr) :
    phase1 pk wtns =
      (msm pk.pointsA wtns pk.nVars, msm pk.pointsB1 wtns pk.nVars,
       msm pk.pointsB2 wtns pk.nVars,
       msm pk.pointsC (fun i => wtns (pk.nPublic + 1 + i))
         (pk.nVars - pk.nPublic - 1)) ∧
    (callA pk wtns).loadWidth = frByteSize ∧
    (callB1 pk wtns).loadWidth = frByteSize ∧
    (callB2 pk wtns).loadWidth = frByteSize ∧
    (callC pk wtns).loadWidth = frByteSize ∧
    (∀ wtns' : Nat → Fr, (∀ i, pk.nPublic + 1 ≤ i → wtns i = wtns' i) →
      (callC pk wtns).run = (callC pk wtns').run) := by
  refine ⟨rfl, rfl, rfl, rfl, rfl, ?_⟩
  intro wtns' hagree
  simp only [callC, MsmCall.run, msm]
  apply Finset.sum_congr rfl
  intro i _
  rw [hagree (pk.nPublic + 1 + i) (Nat.le_add_right _ _)]

theorem c3_phase1_msms_witness :
    (callC pkZ (fun _ => 1)).run =
      (callC pkZ (fun i => if i = 0 then 0 else 1)).run :=
  (c3_phase1_msms pkZ (fun _ => 1)).2.2.2.2.2 (fun i => if i = 0 then 0 else 1)
    (fun i hi => by
      have hne : i ≠ 0 := by
        have : pkZ.nPublic = 0 := rfl
        omega
      simp [hne])

/-- C4: each blinding scalar is sampled by a loop that draws four random
64-bit limbs, masks the top limb with `0x3FFFFFFFFFFFFFFF`, and accepts
exactly when the four-limb little-endian value is strictly below the
BN254 scalar modulus `q`; consequently every accepted value is `< q`
(and is the masked version of one of the draws). -/
theorem c4_rejection_sampling :
    (∀ dr : Limbs4, dr.wf → (sampleAccept dr = true ↔ (maskTop dr).val < q)) ∧
    (∀ (draws : List Limbs4) (r : Limbs4), (∀ dr ∈ draws, dr.wf) →
      sampleLoop draws = some r → r.val < q ∧ ∃ dr ∈ draws, r = maskTop dr) :=
  ⟨fun _ h => sampleAccept_iff h, sampleLoop_sound⟩

theorem c4_rejection_sampling_witness :
    (sampleAccept drawZero = true ↔ (maskTop drawZero).val < q) ∧
    ((maskTop drawZero).val < q ∧
      ∃ dr ∈ [drawZero], maskTop drawZero = maskTop dr) :=
  ⟨c4_rejection_sampling.1 drawZero (by decide),
   c4_rejection_sampling.2 [drawZero] (maskTop drawZero) (by decide) (by decide)⟩

/-- C5: the Phase-2 scatter result is invariant under every permutation
of the coefficient stream; for each bucket, the accumulated value at
`a[c]` (records with m=0) resp. `b[c]` (records with m=1) is the initial
value plus the serial sum of `wtns[s]·coef` over the records targeting
that polynomial and index. -/
theorem c5_scatter_order_independence {d : Nat} (wtns : Nat → Fr)
    (cs cs' : List (Coef d)) (p : (Fin d → Fr) × (Fin d → Fr))
    (hperm : cs.Perm cs') (hm : ∀ t ∈ cs, t.m = 0 ∨ t.m = 1) :
    scatter wtns cs' p = scatter wtns cs p ∧
    (∀ j, (scatter wtns cs p).1 j =
      p.1 j + ((cs.filter fun t => decide (t.m = 0 ∧ t.c = j)).map
        fun t => frMul (wtns t.s) t.coef).sum) ∧
    (∀ j, (scatter wtns cs p).2 j =
      p.2 j + ((cs.filter fun t => decide (t.m = 1 ∧ t.c = j)).map
        fun t => frMul (wtns t.s) t.coef).sum) := by
  refine ⟨(scatter_perm wtns hperm p).symm, fun j => scatter_fst wtns cs p j,
    fun j => ?_⟩
  rw [scatter_snd wtns cs p j, bucketB]
  have hf : (cs.filter fun t => decide (¬ t.m = 0 ∧ t.c = j)) =
      (cs.filter fun t => decide (t.m = 1 ∧ t.c = j)) := by
    apply List.filter_congr
    intro t ht
    rcases hm t ht with h | h <;> simp [h]
  rw [hf]

theorem c5_scatter_order_independence_witness :
    scatter (fun _ => 1) [(⟨1, 0, 1, 1⟩ : Coef 1), ⟨0, 0, 0, 1⟩] (arr0, arr0) =
      scatter (fun _ => 1) [(⟨0, 0, 0, 1⟩ : Coef 1), ⟨1, 0, 1, 1⟩] (arr0, arr0) ∧
    (∀ j, (scatter (fun _ => 1) [(⟨0, 0, 0, 1⟩ : Coef 1), ⟨1, 0, 1, 1⟩]
        (arr0, arr0)).1 j =
      arr0 j + (([(⟨0, 0, 0, 1⟩ : Coef 1), ⟨1, 0, 1, 1⟩].filter
          fun t => decide (t.m = 0 ∧ t.c = j)).map
        fun t => frMul ((fun _ => 1) t.s) t.coef).sum) ∧
    (∀ j, (scatter (fun _ => 1) [(⟨0, 0, 0, 1⟩ : Coef 1), ⟨1, 0, 1, 1⟩]
        (arr0, arr0)).2 j =
      arr0 j + (([(⟨0, 0, 0, 1⟩ : Coef 1), ⟨1, 0, 1, 1⟩].filter
          fun t => decide (t.m = 1 ∧ t.c = j)).map
        fun t => frMul ((fun _ => 1) t.s) t.coef).sum) :=
  c5_scatter_order_independence (fun _ => 1)
    [⟨0, 0, 0, 1⟩, ⟨1, 0, 1, 1⟩] [⟨1, 0, 1, 1⟩, ⟨0, 0, 0, 1⟩] (arr0, arr0)
    (List.Perm.swap _ _ _) (by decide)

/-- C6 counterexample: the source zero-initialises only `a` and `b`; the
`c` array keeps its allocation-time contents through the initialisation,
so the claim that all three vectors are zero-initialised fails on a
1-cell `c` array holding 1. -/
theorem c6_counterexample :
    ¬ (initVectors 1 arr0 arr0 (fun _ => (1 : Fr))).2.2 = (fun _ => (0 : Fr)) := by
  intro h
  have h0 := congrFun h 0
  simp [initVectors] at h0

/-- C6 amended: at the start of Phase 2 the three vectors are allocated,
and the initialisation loop zero-writes exactly `a` and `b`, leaving `c`
with its allocation-time contents (it is fully overwritten later, before
any read). -/
theorem c6_init_zeroes_a_b_only (d : Nat) (a0 b0 c0 : Fin d → Fr) :
    initVectors d a0 b0 c0 = (fun _ => 0, fun _ => 0, c0) := by
  simp [initVectors, arrWrite_eq]

/-- C7: the checked prover errors with `InvalidWitnessLength` exactly on
a witness whose length differs from `nVars`; with a matching length and a
successful randomness source every other step is infallible and a proof
is returned. -/
theorem c7_invalid_witness_length {G1 G2 : Type} [AddCommGroup G1]
    [AddCommGroup G2] {d : Nat} (F : FFTModel) (pk : ProvingKey G1 G2 d)
    (wtns : List Fr) (a0 b0 c0 : Fin d → Fr) (rD sD : List Limbs4) :
    (wtns.length ≠ pk.nVars →
      proveChecked F pk wtns a0 b0 c0 rD sD = .error .InvalidWitnessLength) ∧
    (wtns.length = pk.nVars → (sampleLoop rD).isSome → (sampleLoop sD).isSome →
      ∃ pf, proveChecked F pk wtns a0 b0 c0 rD sD = .ok pf) := by
  constructor
  · intro h
    simp [proveChecked, h]
  · intro h hr hs
    obtain ⟨r, hr'⟩ := Option.isSome_iff_exists.mp hr
    obtain ⟨s, hs'⟩ := Option.isSome_iff_exists.mp hs
    have hrun : (proveRun F pk (fun i => wtns.getD i 0) a0 b0 c0 rD sD).isSome := by
      simp [proveRun, hr', hs']
    obtain ⟨pf0, hpf⟩ := Option.isSome_iff_exists.mp hrun
    refine ⟨pf0, ?_⟩
    unfold proveChecked
    rw [if_neg (by simp [h]), hpf]

theorem c7_invalid_witness_length_witness :
    (proveChecked fftId pkZ [] arr0 arr0 arr0 [drawZero] [drawZero] =
      .error .InvalidWitnessLength) ∧
    ∃ pf, proveChecked fftId pkZ [1, 1] arr0 arr0 arr0 [drawZero] [drawZero] =
      .ok pf :=
  ⟨(c7_invalid_witness_length fftId pkZ [] arr0 arr0 arr0 [drawZero] [drawZero]).1
      (by decide),
   (c7_invalid_witness_length fftId pkZ [1, 1] arr0 arr0 arr0 [drawZero]
      [drawZero]).2 (by decide) (by decide) (by decide)⟩

/-- C8: the scalar passed for the `(r·s)·vk_delta1` term is the Fr
Montgomery multiplication of r and s followed by `toMontgomery`, whose
stored bytes encode exactly `r·s mod q` in natural form; consumed as a
raw integer by `mulByScalar` it scales the point by `r·s mod q`. -/
theorem c8_rs_scalar_encoding {G : Type} [AddCommGroup G] (rN sN : Nat) (P : G) :
    (toMont (frMul (rN : Fr) (sN : Fr))).val = (rN * sN) % q ∧
    mulByScalar P (toMont (frMul (rN : Fr) (sN : Fr))).val = ((rN * sN) % q) • P := by
  refine ⟨rsVal rN sN, ?_⟩
  rw [mulByScalar, rsVal]

/-- C9: `toJson` and `toJsonStr` emit the object with fields in the order
pi_a, pi_b, pi_c, protocol; pi_a and pi_c are `[X, Y, "1"]`, pi_b is
`[[X.a, X.b], [Y.a, Y.b], ["1","0"]]`, protocol is `"groth16"`, and every
coordinate is the decimal string of the natural-form representative. -/
theorem c9_proof_json (pr : ProofAffine) :
    pr.toJson = proofJsonSpec pr ∧ pr.toJsonStr = proofStrSpec pr := by
  constructor
  · simp [ProofAffine.toJson, proofJsonSpec, Json.setField, Json.pushAt,
      Json.pushElem, objInsert,
      (by decide : ¬ (['p', 'r', 'o', 't', 'o', 'c', 'o', 'l'] < ['p', 'i', '_', 'a'])),
      (by decide : ¬ (['p', 'i', '_', 'c'] < ['p', 'i', '_', 'b'])),
      (by decide : ¬ (['p', 'r', 'o', 't', 'o', 'c', 'o', 'l'] < ['p', 'i', '_', 'b'])),
      (by decide : ¬ (['p', 'r', 'o', 't', 'o', 'c', 'o', 'l'] < ['p', 'i', '_', 'c']))]
  · rw [ProofAffine.toJsonStr, proofStrSpec]
    simp only [String.append_assoc]
    rw [append_lit (by decide : ("\",\"1\"], " : String) ++ " \"pi_b\": [[\"" =
          "\",\"1\"],  \"pi_b\": [[\""),
        append_lit (by decide : ("\"], [\"1\",\"0\"]], " : String) ++ " \"pi_c\": [\"" =
          "\"], [\"1\",\"0\"]],  \"pi_c\": [\"")]
    rw [show ("\",\"1\"], " : String) ++ " \"protocol\":\"groth16\" \x7d" =
          "\",\"1\"],  \"protocol\":\"groth16\" \x7d" from by decide]

/-- C10: skipping the zero-initialisation of `c` is unobservable: the
pointwise step writes every `c[i] = a[i]·b[i]` before any read of `c`,
so `prove` without the `c` zero-write equals the variant that zero-writes
all three vectors, and its output does not depend on the allocation-time
contents of `c`. -/
theorem c10_zero_init_refinement {G1 G2 : Type} [AddCommGroup G1]
    [AddCommGroup G2] {d : Nat} (F : FFTModel) (pk : ProvingKey G1 G2 d)
    (wtns : Nat → Fr) (a0 b0 c0 c0' : Fin d → Fr) (rD sD : List Limbs4) :
    proveRun F pk wtns a0 b0 c0 rD sD = proveRunZeroC F pk wtns a0 b0 c0 rD sD ∧
    proveRun F pk wtns a0 b0 c0 rD sD = proveRun F pk wtns a0 b0 c0' rD sD := by
  constructor
  · simp [proveRun, proveRunZeroC, initVectors, initVectorsAll, computeC,
      arrWrite_eq]
  · simp [proveRun, initVectors, computeC, arrWrite_eq]

end Groth16
